import Mathlib

/-!
Verification of the git-genie workflow tool (a Node CLI automating the
commit/branch/push cycle) against its natural-language specification.

Text manipulated by the program is embedded as `List Char` (the character
sequence of a JavaScript string); fixed result tags (commit types) stay as
`String` literals.  Collaborators (the VCS client, the keytar secure store,
the filesystem, the AI completion call, interactive prompts) are modelled as
oracle records whose fields give the outcome of each call, and the crypto
primitives (AES-256-CBC) as an abstract cipher record, so every definition
below is executable and mirrors one function of the source.
-/

/-! ## String helpers (character-list operations mirroring JS string methods) -/

/-- JS `s.split(c)` for a single-character separator: `"".split(c) = [""]`,
and a trailing separator yields a trailing empty segment. -/
def splitOnChar (c : Char) : List Char → List (List Char)
  | [] => [[]]
  | x :: xs =>
    match splitOnChar c xs with
    | [] => [[]]
    | y :: ys => if x = c then [] :: y :: ys else (x :: y) :: ys

/-- JS `parts.join("\n")`: interleave a single newline between segments. -/
def joinNl : List (List Char) → List Char
  | [] => []
  | [l] => l
  | l :: l' :: ls => l ++ '\n' :: joinNl (l' :: ls)

/-- JS `s.toLowerCase()` (ASCII-adequate model). -/
def lowerStr (s : List Char) : List Char := s.map Char.toLower

/-- JS `s.trim()`: strip leading and trailing whitespace. -/
def trimChars (s : List Char) : List Char :=
  ((s.dropWhile Char.isWhitespace).reverse.dropWhile Char.isWhitespace).reverse

/-- Worker for `collapseWs`: `inRun` records whether the previous character
was whitespace (each maximal run emits exactly one hyphen at its start). -/
def collapseWsGo : Bool → List Char → List Char
  | _, [] => []
  | inRun, c :: rest =>
    if c.isWhitespace then
      if inRun then collapseWsGo true rest else '-' :: collapseWsGo true rest
    else c :: collapseWsGo false rest

/-- JS `s.replace(/\s+/g, "-")`: each maximal whitespace run becomes one hyphen. -/
def collapseWs (s : List Char) : List Char := collapseWsGo false s

/-- Characters kept by JS `s.replace(/[^a-z0-9\-]/g, "")`. -/
def isSlugChar (c : Char) : Bool :=
  ('a' ≤ c && c ≤ 'z') || ('0' ≤ c && c ≤ '9') || c = '-'

/-- The open-source manual short title:
`desc.toLowerCase().replace(/\s+/g,'-').replace(/[^a-z0-9\-]/g,'')`
(src/index.js line 737). -/
def sanitizeSlug (s : List Char) : List Char :=
  (collapseWs (lowerStr s)).filter isSlugChar

/-- Case-insensitive containment test modeling JS `s.match(/pat/i)` for a
literal pattern `pat` given in lowercase. -/
def matchCI (s p : List Char) : Bool := decide (p <:+: lowerStr s)

/-! ## CommitTypeClassifier (src/unnamed/part_002, `detectCommitType`) -/

def fixKeywords : List (List Char) :=
  ["fix".data, "bug".data, "error".data, "issue".data, "resolve".data, "patch".data]

def featKeywords : List (List Char) :=
  ["add".data, "implement".data, "feature".data, "new".data, "create".data]

def chorePats : List (List Char) :=
  ["package.json".data, "pnpm-lock".data, "yarn.lock".data, "config".data, ".env".data]

/-- The per-file diff header lines:
`diff.split("\n").filter(line => line.startsWith("diff --git"))`. -/
def headerLines (diff : List Char) : List (List Char) :=
  (splitOnChar '\n' diff).filter (fun l => "diff --git".data.isPrefixOf l)

/-- `detectCommitType` of src/unnamed/part_002, as a function of the staged
diff text (the source reads the diff itself; the git read is the argument). -/
def detectCommitType (diff : List Char) : String :=
  if diff = [] then "feat"
  else
    let files := joinNl (headerLines diff)
    if matchCI files ".md".data then "docs"
    else if chorePats.any (fun p => matchCI files p) then "chore"
    else if matchCI files ".test.".data || matchCI files ".spec.".data then "test"
    else if matchCI files ".css".data || matchCI files ".scss".data ||
            matchCI files ".tailwind.".data then "style"
    else
      let diffLower := lowerStr diff
      if fixKeywords.any (fun w => decide (w <:+: diffLower)) then "fix"
      else if featKeywords.any (fun w => decide (w <:+: diffLower)) then "feat"
      else "feat"

/-! ## CredentialVault (src/index.js lines 38-164)

The external collaborators are modelled as data: `keytarAvailable = false`
means every keytar call throws; `configFile` describes the `config.json`
state (`none` = absent, `.error` = JSON parse failure, `.ok f` = parsed with
optional `GEMINI_API_KEY` field); `fallbackKey` is the sha256 digest of
home-directory + hostname + username used when keytar is down; `CryptoPrim`
abstracts the AES-256-CBC cipher calls (key, ivHex, data). -/

structure CryptoPrim where
  enc : List Char → List Char → List Char → List Char
  dec : List Char → List Char → List Char → Except Unit (List Char)

structure VaultState where
  envVar : Option (List Char)
  keytarAvailable : Bool
  keytarApi : Option (List Char)
  keytarEnc : Option (List Char)
  configFile : Option (Except Unit (Option (List Char)))
  fallbackKey : List Char

/-- `getEncryptionKey` (lines 38-56): read the stored per-user key from
keytar, generating and storing a fresh random one (`fresh`) when absent; on
any keytar error fall back to the machine-derived hash. -/
def getEncryptionKey (st : VaultState) (fresh : List Char) :
    List Char × VaultState :=
  if st.keytarAvailable then
    match st.keytarEnc with
    | some k => (k, st)
    | none => (fresh, { st with keytarEnc := some fresh })
  else (st.fallbackKey, st)

/-- `encrypt` (lines 58-73): reject empty input, then produce
`ivHex ++ ":" ++ cipherHex`.  `iv` stands for the fresh random
16-byte IV rendered as 32 hex characters. -/
def encrypt (prim : CryptoPrim) (st : VaultState) (fresh iv text : List Char) :
    Except (List Char) (List Char × VaultState) :=
  if text = [] then .error "Text to encrypt must be a non-empty string".data
  else
    let (key, st') := getEncryptionKey st fresh
    .ok (iv ++ ':' :: prim.enc key iv text, st')

/-- Failure kinds of `decrypt`, in source order: the non-empty-input guard
(line 76), the exactly-one-colon format check (line 85), the
nonempty-parts/IV-length structure check (line 92), and a failure coming out
of the decipher itself (e.g. wrong key, lines 97-99). -/
inductive DecErr where
  | emptyInput
  | badFormat
  | badStructure
  | decipherFail
deriving DecidableEq

/-- `decrypt` (lines 75-104).  The encryption key is fetched before the
format checks, exactly as in the source. -/
def decrypt (prim : CryptoPrim) (st : VaultState) (fresh text : List Char) :
    Except DecErr (List Char) :=
  if text = [] then .error .emptyInput
  else
    let (key, _) := getEncryptionKey st fresh
    match splitOnChar ':' text with
    | [ivHex, encd] =>
      if ivHex = [] || encd = [] || ivHex.length ≠ 32 then .error .badStructure
      else
        match prim.dec key ivHex encd with
        | .ok t => .ok t
        | .error _ => .error .decipherFail
    | _ => .error .badFormat

/-- The keytar-then-config part of `getApiKey` (lines 110-138): keytar
errors are swallowed, a missing/corrupt/undecryptable config yields `none`. -/
def getApiKeyStores (prim : CryptoPrim) (st : VaultState) (fresh : List Char) :
    Option (List Char) :=
  let fromConfig : Option (List Char) :=
    match st.configFile with
    | none => none
    | some (.error _) => none
    | some (.ok none) => none
    | some (.ok (some blob)) =>
      if blob = [] then none
      else
        match decrypt prim st fresh blob with
        | .ok v => some v
        | .error _ => none
  if st.keytarAvailable then
    match st.keytarApi with
    | some k => if k = [] then fromConfig else some k
    | none => fromConfig
  else fromConfig

/-- `getApiKey` (lines 106-139): environment variable first (truthy check),
then keytar, then the encrypted config file; never throws. -/
def getApiKey (prim : CryptoPrim) (st : VaultState) (fresh : List Char) :
    Option (List Char) :=
  match st.envVar with
  | some s => if s = [] then getApiKeyStores prim st fresh else some s
  | none => getApiKeyStores prim st fresh

/-- `saveApiKey` (lines 141-164): reject empty/whitespace-only input, trim,
store in keytar when it works, else encrypt and write the config file. -/
def saveApiKey (prim : CryptoPrim) (st : VaultState) (fresh iv apikey : List Char) :
    Except (List Char) VaultState :=
  if apikey = [] || trimChars apikey = [] then
    .error "API key must be a non-empty string".data
  else
    let t := trimChars apikey
    if st.keytarAvailable then .ok { st with keytarApi := some t }
    else
      match encrypt prim st fresh iv t with
      | .ok (blob, st') => .ok { st' with configFile := some (.ok (some blob)) }
      | .error e => .error ("Failed to save API key: ".data ++ e)

/-! ## SuggestionGenerator (src/index.js lines 370-414 and 461-512)

The AI collaborator outcome is a parameter: `.error ()` models a thrown
call, `.ok none` a response with no text, `.ok (some t)` a returned text.
JS template literals render an absent `opts.type` as the string
"undefined"; `showType` encodes exactly that. -/

def showType : Option (List Char) → List Char
  | some t => t
  | none => "undefined".data

/-- The manual commit-message formula
`type(scope): desc` with the scope segment omitted when empty (line 379). -/
def manualCommitMsg (typeOpt : Option (List Char)) (scope desc : List Char) :
    List Char :=
  showType typeOpt ++ (if scope = [] then [] else '(' :: (scope ++ [')'])) ++
    ": ".data ++ desc

/-- `generateCommitMessage` (lines 370-414).  `diff` is embedded in the AI
prompt only, so it does not influence the result beyond the oracle `ai`. -/
def generateCommitMessage (diff : List Char) (apiKey : Option (List Char))
    (genie : Bool) (ai : Except Unit (Option (List Char)))
    (typeOpt : Option (List Char)) (scope desc : List Char) : List Char :=
  if !genie || apiKey = none then manualCommitMsg typeOpt scope desc
  else
    match ai with
    | .error _ => manualCommitMsg typeOpt scope desc
    | .ok none => showType typeOpt ++ ": ".data ++ desc
    | .ok (some t) =>
      let tt := trimChars t
      if tt = [] then showType typeOpt ++ ": ".data ++ desc else tt

/-- The manual branch-name formula
`type/desc.toLowerCase().replace(/\s+/g,'-')-YYYY-MM-DD` (line 466). -/
def manualBranchName (typeOpt : Option (List Char)) (desc today : List Char) :
    List Char :=
  showType typeOpt ++ '/' :: (collapseWs (lowerStr desc) ++ '-' :: today)

/-- `generateBranchName` (lines 461-512): the trimmed AI text is used only
when it is non-empty, contains a '/', and is at most 50 characters long;
every other outcome falls back to the manual formula. -/
def generateBranchName (diff : List Char) (apiKey : Option (List Char))
    (genie : Bool) (ai : Except Unit (Option (List Char)))
    (typeOpt : Option (List Char)) (desc today : List Char) : List Char :=
  if !genie || apiKey = none then manualBranchName typeOpt desc today
  else
    match ai with
    | .error _ => manualBranchName typeOpt desc today
    | .ok none => manualBranchName typeOpt desc today
    | .ok (some t) =>
      let a := trimChars t
      if a ≠ [] ∧ '/' ∈ a ∧ a.length ≤ 50 then a
      else manualBranchName typeOpt desc today

/-! ## RetryingPusher (src/index.js lines 529-552)

`outcomes k` is the result of the k-th push attempt against origin
(`none` = success).  The pair returned is (final error if any, number of
attempts performed).  `remaining` mirrors `maxRetries - attempt`. -/

def pushAttemptsGo {α : Type} (outcomes : Nat → Option α) :
    Nat → Nat → Option α × Nat
  | attempt, remaining =>
    match outcomes attempt with
    | none => (none, attempt + 1)
    | some e =>
      match remaining with
      | 0 => (some e, attempt + 1)
      | r + 1 => pushAttemptsGo outcomes (attempt + 1) r

/-- `pushBranch` retry loop with `maxRetries = 2` (line 531). -/
def pushBranchModel {α : Type} (outcomes : Nat → Option α) : Option α × Nat :=
  pushAttemptsGo outcomes 0 2

/-! ## MergeAutomation (src/index.js lines 596-663) and the main flow

Observable operations are recorded as events so that theorems can speak
about which steps ran and with which data. -/

inductive Ev where
  | initRepo
  | remoteAdd
  | suggestBranch (name : List Char)
  | createBranch (name : List Char)
  | stageAll
  | detectType
  | genCommitMsg
  | commitMsg (m : List Char)
  | checkoutMain
  | pullMain
  | pullWarn
  | mergeBranch (b : List Char)
  | pushMain
  | pushBranchEv (b : List Char)
  | deleteLocal
  | deleteRemote
deriving DecidableEq

/-- Collaborator outcomes consumed by `mergeToMainAndPush`: `none` in an
`Option` field means the git call succeeds, `some e` that it throws `e`;
`ensureRemote` is the boolean result of `ensureRemoteOriginInteractive`
(which never throws, lines 555-593); the two answers come from prompts. -/
structure MergeEnv where
  checkoutMain : Option (List Char)
  pullOk : Bool
  mergeResult : Option (List Char)
  ensureRemote : Bool
  pushMainResult : Option (List Char)
  cleanupAnswer : Bool
  deleteLocalOk : Bool
  deleteRemoteOk : Bool

/-- `mergeToMainAndPush` (lines 596-663): switch to main; pull main with a
tolerated failure; merge the feature branch (fatal on failure, rethrown by
the outer catch); ensure a remote, push main (fatal on failure) or skip with
a warning; optionally delete the local branch, with a best-effort remote
delete.  Returns the propagated error, if any, and the event trace. -/
def mergeToMainAndPush (m : MergeEnv) (currentBranch : List Char) :
    Option (List Char) × List Ev :=
  match m.checkoutMain with
  | some e => (some e, [Ev.checkoutMain])
  | none =>
    let t1 := [Ev.checkoutMain, Ev.pullMain] ++ (if m.pullOk then [] else [Ev.pullWarn])
    match m.mergeResult with
    | some e => (some e, t1 ++ [Ev.mergeBranch currentBranch])
    | none =>
      let t2 := t1 ++ [Ev.mergeBranch currentBranch]
      if m.ensureRemote then
        match m.pushMainResult with
        | some e => (some e, t2 ++ [Ev.pushMain])
        | none =>
          let t3 := t2 ++ [Ev.pushMain]
          if m.cleanupAnswer && currentBranch ≠ "main".data then
            if m.deleteLocalOk then
              if m.deleteRemoteOk then (none, t3 ++ [Ev.deleteLocal, Ev.deleteRemote])
              else (none, t3 ++ [Ev.deleteLocal])
            else (none, t3)
          else (none, t3)
      else (none, t2)

/-! ## WorkflowOrchestrator (src/index.js lines 666-860) -/

/-- The options record built by the CLI for the commit command: `--type` has
no default (hence `Option`), `--scope` defaults to the empty string,
`--no-branch` clears `branch` (default true). -/
structure Opts where
  type : Option (List Char)
  scope : List Char
  genie : Bool
  osc : Bool
  branch : Bool
  pushToMain : Bool
  remote : Option (List Char)

/-- Collaborator and prompt outcomes consumed by one run of `runMainFlow`.
`diffCached1` is the staged diff first read, `diffCached2` the one re-read
after force-staging; `newBranchAnswer = none` means the operator accepts the
suggested default in the branch-name prompt. -/
structure FlowEnv where
  isRepo : Bool
  initErr : Option (List Char)
  hasCommits : Bool
  currentBranch : List Char
  checkoutErr : Option (List Char)
  wantNewBranch : Bool
  issueNumber : List Char
  newBranchAnswer : Option (List Char)
  unstagedDiff : List Char
  diffCached1 : List Char
  stageErr : Option (List Char)
  diffCached2 : List Char
  commitErr : Option (List Char)
  confirmPush : Bool
  ensureRemote : Bool
  pushOutcomes : Nat → Option (List Char)
  pushMainErr : Option (List Char)
  wantMergeToMain : Bool
  merge : MergeEnv
  vault : VaultState
  prim : CryptoPrim
  freshKey : List Char
  aiCommit : Except Unit (Option (List Char))
  aiBranch : Except Unit (Option (List Char))
  today : List Char

/-- Run outcome: `.ok` ends the process normally, `.err m` reaches
`process.exit(1)` (directly or through the outer catch) with diagnostic `m`. -/
inductive FlowExit where
  | ok
  | err (msg : List Char)
deriving DecidableEq

def FlowExit.exitCode : FlowExit → Nat
  | .ok => 0
  | .err _ => 1

/-- Step 4 of `runMainFlow` (lines 697-767): decide the branch.  Returns the
chosen branch name or a thrown checkout error, together with the events
(the suggestion prompt fires before the checkout can fail). -/
def branchStep (env : FlowEnv) (opts : Opts) (desc : List Char) :
    Except (List Char) (List Char) × List Ev :=
  if opts.branch = false || env.hasCommits = false then
    match env.checkoutErr with
    | some e => (.error e, [])
    | none => (.ok "main".data, [Ev.createBranch "main".data])
  else if env.wantNewBranch then
    let suggested :=
      if opts.osc then
        let shortTitle :=
          if opts.genie then
            let ud := if env.unstagedDiff = [] then desc else env.unstagedDiff
            let bn := generateBranchName ud (getApiKey env.prim env.vault env.freshKey)
              opts.genie env.aiBranch opts.type desc env.today
            if '/' ∈ bn then ((splitOnChar '/' bn).getD 1 []) else bn
          else sanitizeSlug desc
        showType opts.type ++ "/#".data ++ env.issueNumber ++ '-' :: shortTitle
      else
        if opts.genie then
          let ud := if env.unstagedDiff = [] then desc else env.unstagedDiff
          generateBranchName ud (getApiKey env.prim env.vault env.freshKey)
            opts.genie env.aiBranch opts.type desc env.today
        else manualBranchName opts.type desc env.today
    let chosen := match env.newBranchAnswer with
      | some s => s
      | none => suggested
    match env.checkoutErr with
    | some e => (.error e, [Ev.suggestBranch suggested])
    | none => (.ok chosen, [Ev.suggestBranch suggested, Ev.createBranch chosen])
  else
    match env.checkoutErr with
    | some e => (.error e, [])
    | none => (.ok env.currentBranch, [])

/-- Step 8 of `runMainFlow` (lines 797-852): push directly, merge to main,
or prompt-and-push with an optional merge. -/
def pushPhase (env : FlowEnv) (opts : Opts) (branchName : List Char)
    (t : List Ev) : FlowExit × List Ev :=
  if opts.pushToMain then
    if branchName = "main".data then
      if env.ensureRemote then
        match env.pushMainErr with
        | some e => (.err e, t ++ [Ev.pushMain])
        | none => (.ok, t ++ [Ev.pushMain])
      else (.ok, t)
    else
      match mergeToMainAndPush env.merge branchName with
      | (some e, mt) => (.err e, t ++ mt)
      | (none, mt) => (.ok, t ++ mt)
  else if env.confirmPush then
    let step1 : Option (List Char) × List Ev :=
      if env.ensureRemote then
        match pushBranchModel env.pushOutcomes with
        | (some e, _) => (some e, t ++ [Ev.pushBranchEv branchName])
        | (none, _) => (none, t ++ [Ev.pushBranchEv branchName])
      else (none, t)
    match step1 with
    | (some e, t') => (.err e, t')
    | (none, t') =>
      if branchName ≠ "main".data && env.wantMergeToMain then
        match mergeToMainAndPush env.merge branchName with
        | (some e, mt) => (.err e, t' ++ mt)
        | (none, mt) => (.ok, t' ++ mt)
      else (.ok, t')
  else (.ok, t)

/-- Steps 6 and 7 of `runMainFlow` (lines 782-795), entered with the
non-empty staged diff `diffNow`: auto-detect the commit type when no
explicit type and no AI, generate the commit message, commit, then push. -/
def commitPhase (env : FlowEnv) (opts : Opts) (desc branchName diffNow : List Char)
    (t : List Ev) : FlowExit × List Ev :=
  let typeUsed := if opts.type = none && opts.genie = false
    then some (detectCommitType diffNow).data else opts.type
  let t := if opts.type = none && opts.genie = false then t ++ [Ev.detectType] else t
  let msg := generateCommitMessage diffNow (getApiKey env.prim env.vault env.freshKey)
    opts.genie env.aiCommit typeUsed opts.scope desc
  let t := t ++ [Ev.genCommitMsg, Ev.commitMsg msg]
  match env.commitErr with
  | some e => (.err e, t)
  | none => pushPhase env opts branchName t

/-- `runMainFlow` (lines 666-860): repository initialization, optional
remote add (its failure is swallowed, lines 680-687), branch decision,
staging with the nothing-to-commit terminal failure (lines 769-780),
message generation, commit, and the push phase.  Any thrown collaborator
error reaches the outer catch and exits 1. -/
def runMainFlow (env : FlowEnv) (desc : List Char) (opts : Opts) :
    FlowExit × List Ev :=
  let t0 : List Ev := if env.isRepo then [] else [Ev.initRepo]
  match (if env.isRepo then none else env.initErr) with
  | some e => (.err e, t0)
  | none =>
    let t0 := t0 ++ (if opts.remote.isSome then [Ev.remoteAdd] else [])
    match branchStep env opts desc with
    | (.error e, t1) => (.err e, t0 ++ t1)
    | (.ok branchName, t1) =>
      let t := t0 ++ t1
      if env.diffCached1 = [] then
        match env.stageErr with
        | some e => (.err e, t ++ [Ev.stageAll])
        | none =>
          let t := t ++ [Ev.stageAll]
          if env.diffCached2 = [] then
            (.err "No changes detected to commit even after staging.".data, t)
          else commitPhase env opts desc branchName env.diffCached2 t
      else commitPhase env opts desc branchName env.diffCached1 t

/-- A concrete baseline environment used by the workflow witnesses. -/
def flowEnv0 : FlowEnv where
  isRepo := true
  initErr := none
  hasCommits := true
  currentBranch := "main".data
  checkoutErr := none
  wantNewBranch := true
  issueNumber := "42".data
  newBranchAnswer := none
  unstagedDiff := []
  diffCached1 := []
  stageErr := none
  diffCached2 := []
  commitErr := none
  confirmPush := false
  ensureRemote := false
  pushOutcomes := fun _ => none
  pushMainErr := none
  wantMergeToMain := false
  merge := ⟨none, true, none, false, none, false, true, true⟩
  vault := ⟨none, false, none, none, none, []⟩
  prim := ⟨fun _ _ _ => [], fun _ _ _ => .error ()⟩
  freshKey := []
  aiCommit := .error ()
  aiBranch := .error ()
  today := "2026-10-11".data

/-- Concrete options used by the workflow witnesses: manual open-source
mode with an explicit type and empty scope. -/
def opts0 : Opts where
  type := some "fix".data
  scope := []
  genie := false
  osc := true
  branch := true
  pushToMain := false
  remote := none

/-! ## Infix lemmas used to reason about joined header lines -/

theorem mem_infixOf_joinNl {l : List Char} : ∀ {ls : List (List Char)},
    l ∈ ls → l <:+: joinNl ls := by
  intro ls
  induction ls with
  | nil => intro h; cases h
  | cons a t ih =>
    intro h
    rcases List.mem_cons.mp h with rfl | h
    · cases t with
      | nil => exact List.infix_rfl
      | cons b t' =>
        show l <:+: l ++ '\n' :: joinNl (b :: t')
        exact List.IsPrefix.isInfix (List.prefix_append l _)
    · cases t with
      | nil => cases h
      | cons b t' =>
        have h1 : l <:+: joinNl (b :: t') := ih h
        have h2 : joinNl (b :: t') <:+: a ++ '\n' :: joinNl (b :: t') := by
          refine List.IsSuffix.isInfix ?_
          exact ⟨a ++ ['\n'], by simp⟩
        exact h1.trans h2

theorem infixOf_append_cons {p : List Char} (c : Char) (hp : p ≠ []) (hc : c ∉ p) :
    ∀ {a r : List Char}, p <:+: a ++ c :: r → p <:+: a ∨ p <:+: r := by
  intro a
  induction a with
  | nil =>
    intro r h
    simp only [List.nil_append] at h
    rcases List.infix_cons_iff.mp h with h | h
    · exfalso
      cases p with
      | nil => exact hp rfl
      | cons q qt =>
        rcases List.cons_prefix_cons.mp h with ⟨rfl, -⟩
        exact hc (List.mem_cons_self q qt)
    · exact Or.inr h
  | cons x a ih =>
    intro r h
    simp only [List.cons_append] at h
    rcases List.infix_cons_iff.mp h with h | h
    · -- p is a prefix of x :: (a ++ c :: r)
      cases p with
      | nil => exact absurd rfl hp
      | cons q qt =>
        rcases List.cons_prefix_cons.mp h with ⟨rfl, hqt⟩
        -- qt <+: a ++ c :: r ; compare lengths with a
        by_cases hlen : qt.length ≤ a.length
        · have : qt <+: a :=
            List.prefix_of_prefix_length_le hqt (List.prefix_append a _) hlen
          exact Or.inl (List.IsPrefix.isInfix (List.cons_prefix_cons.mpr ⟨rfl, this⟩))
        · exfalso
          have ha : a <+: qt :=
            List.prefix_of_prefix_length_le (List.prefix_append a _) hqt
              (Nat.le_of_lt (Nat.lt_of_not_le hlen))
          rcases ha with ⟨u, rfl⟩
          have hu : u <+: c :: r := by
            have := (List.prefix_append_right_inj a).mp hqt
            exact this
          cases u with
          | nil => simp at hlen
          | cons u0 ut =>
            rcases List.cons_prefix_cons.mp hu with ⟨rfl, -⟩
            exact hc (by simp)
    · rcases ih h with h' | h'
      · exact Or.inl (h'.trans (List.infix_cons List.infix_rfl))
      · exact Or.inr h'

theorem infixOf_joinNl {p : List Char} (hp : p ≠ []) (hnl : '\n' ∉ p) :
    ∀ {ls : List (List Char)}, p <:+: joinNl ls → ∃ l ∈ ls, p <:+: l := by
  intro ls
  induction ls with
  | nil =>
    intro h
    exact absurd (List.infix_nil.mp h) hp
  | cons a t ih =>
    intro h
    cases t with
    | nil => exact ⟨a, by simp, h⟩
    | cons b t' =>
      have h' : p <:+: a ++ '\n' :: joinNl (b :: t') := h
      rcases infixOf_append_cons '\n' hp hnl h' with h1 | h1
      · exact ⟨a, by simp, h1⟩
      · rcases ih h1 with ⟨l, hl, hpl⟩
        exact ⟨l, List.mem_cons_of_mem _ hl, hpl⟩

theorem lowerStr_joinNl : ∀ ls : List (List Char),
    lowerStr (joinNl ls) = joinNl (ls.map lowerStr) := by
  intro ls
  induction ls with
  | nil => rfl
  | cons a t ih =>
    cases t with
    | nil => rfl
    | cons b t' =>
      show lowerStr (a ++ '\n' :: joinNl (b :: t')) = _
      simp only [lowerStr, List.map_append, List.map_cons] at *
      rw [show Char.toLower '\n' = '\n' from by decide]
      simp [joinNl, ih]

/-! ## Lemmas about colon splitting, used for the vault blob format -/

theorem splitOnChar_not_mem {c : Char} : ∀ {b : List Char}, c ∉ b →
    splitOnChar c b = [b] := by
  intro b
  induction b with
  | nil => intro _; rfl
  | cons x xs ih =>
    intro h
    have hx : ¬x = c := fun hxc => h (hxc ▸ List.mem_cons_self x xs)
    have hxs : c ∉ xs := fun hm => h (List.mem_cons_of_mem _ hm)
    simp [splitOnChar, ih hxs, hx]

theorem splitOnChar_append_cons {c : Char} : ∀ {a : List Char} (b : List Char),
    c ∉ a → splitOnChar c (a ++ c :: b) = a :: splitOnChar c b := by
  intro a
  induction a with
  | nil =>
    intro b _
    cases hs : splitOnChar c b with
    | nil => simp [splitOnChar, hs]
    | cons y ys => simp [splitOnChar, hs]
  | cons x a' ih =>
    intro b h
    have hx : ¬x = c := fun hxc => h (hxc ▸ List.mem_cons_self x a')
    have ha' : c ∉ a' := fun hm => h (List.mem_cons_of_mem _ hm)
    have hsp := ih b ha'
    simp only [List.cons_append, splitOnChar, List.append_eq, hsp, hx, if_false]

/-! ## Claim C4 -/

/-- C4: every input blob that does not split on ':' into exactly two
segments, or whose IV segment is not 32 hex characters long, makes `decrypt`
fail with one of the validation errors (`emptyInput`, `badFormat`,
`badStructure`); the failure is distinct from the decipher ("wrong key")
failure, and the decipher primitive is never consulted (the result is the
same for every primitive). -/
theorem decrypt_corrupted_spec (st : VaultState)
    (fresh text : List Char)
    (h : (splitOnChar ':' text).length ≠ 2 ∨
      ∃ ivHex encd, splitOnChar ':' text = [ivHex, encd] ∧ ivHex.length ≠ 32) :
    ∃ e : DecErr,
      (e = .emptyInput ∨ e = .badFormat ∨ e = .badStructure) ∧
      e ≠ .decipherFail ∧
      ∀ prim' : CryptoPrim, decrypt prim' st fresh text = .error e := by
  by_cases htext : text = []
  · exact ⟨.emptyInput, by simp, by simp, fun prim' => by simp [decrypt, htext]⟩
  · rcases hs : splitOnChar ':' text with _ | ⟨a, _ | ⟨b, _ | ⟨d, t⟩⟩⟩
    · exact ⟨.badFormat, by simp, by simp,
        fun prim' => by simp [decrypt, htext, hs]⟩
    · exact ⟨.badFormat, by simp, by simp,
        fun prim' => by simp [decrypt, htext, hs]⟩
    · rcases h with h | ⟨ivHex, encd, heq, hlen⟩
      · exact absurd (by simp [hs]) h
      · rw [hs] at heq
        rcases heq with ⟨rfl, rfl⟩
        refine ⟨.badStructure, by simp, by simp, fun prim' => ?_⟩
        simp [decrypt, htext, hs, hlen]
    · exact ⟨.badFormat, by simp, by simp,
        fun prim' => by simp [decrypt, htext, hs]⟩

/-- C4 witness at the concrete corrupt blob "abc" (no colon at all). -/
theorem decrypt_corrupted_witness :
    ∃ e : DecErr,
      (e = .emptyInput ∨ e = .badFormat ∨ e = .badStructure) ∧
      e ≠ .decipherFail ∧
      ∀ prim' : CryptoPrim,
        decrypt prim' ⟨none, true, none, none, none, []⟩ [] "abc".data = .error e :=
  decrypt_corrupted_spec ⟨none, true, none, none, none, []⟩ [] "abc".data
    (Or.inl (by decide))

/-! ## Claim C1 -/

/-- C1 counterexample: the plaintext `" a "` is non-empty and not
whitespace-only, yet `saveApiKey` stores its trimmed form, so the
round trip returns `"a"`, not the original `" a "` — the claim as stated
(round trip returns the original plaintext exactly) is false.  The state
has keytar available, no environment variable and no stored data; the
cipher primitive is irrelevant on this path. -/
theorem saveApiKey_trim_counterexample :
    (match saveApiKey ⟨fun _ _ t => t, fun _ _ c => .ok c⟩
        ⟨none, true, none, none, none, []⟩ [] [] " a ".data with
     | .ok st' => getApiKey ⟨fun _ _ t => t, fun _ _ c => .ok c⟩ st' []
     | .error _ => none) = some "a".data ∧
    "a".data ≠ " a ".data := by
  constructor
  · decide
  · decide

/-- C1 amended: for every secret whose trim is non-empty, `saveApiKey`
followed by `getApiKey` (no environment variable set, same key material, a
cipher whose decryption inverts encryption at the stored values and whose
ciphertext is non-empty colon-free hex, a 32-character colon-free IV)
returns the *trimmed* plaintext exactly; in particular the original
plaintext whenever it carries no surrounding whitespace. -/
theorem saveApiKey_getApiKey_roundtrip
    (prim : CryptoPrim) (st : VaultState) (fresh iv apikey : List Char)
    (hround : prim.dec st.fallbackKey iv
      (prim.enc st.fallbackKey iv (trimChars apikey)) = .ok (trimChars apikey))
    (hcolon : ':' ∉ prim.enc st.fallbackKey iv (trimChars apikey))
    (hence : prim.enc st.fallbackKey iv (trimChars apikey) ≠ [])
    (hivlen : iv.length = 32) (hivc : ':' ∉ iv)
    (henv : st.envVar = none ∨ st.envVar = some [])
    (ht : trimChars apikey ≠ []) :
    ∃ st', saveApiKey prim st fresh iv apikey = .ok st' ∧
      getApiKey prim st' fresh = some (trimChars apikey) := by
  have hak : apikey ≠ [] := by
    intro h
    subst h
    exact ht rfl
  have hguard : (apikey = [] || trimChars apikey = []) = false := by
    simp [hak, ht]
  by_cases hk : st.keytarAvailable
  · refine ⟨{ st with keytarApi := some (trimChars apikey) }, ?_, ?_⟩
    · simp [saveApiKey, hguard, hk]
    · rcases henv with h | h <;>
        simp [getApiKey, getApiKeyStores, h, hk, ht]
  · have hkf : st.keytarAvailable = false := by simpa using hk
    refine ⟨{ st with configFile := some (.ok (some (iv ++ ':' :: prim.enc st.fallbackKey iv (trimChars apikey)))) }, ?_, ?_⟩
    · simp [saveApiKey, hguard, hkf, encrypt, ht, hak, getEncryptionKey]
    · have hivne : iv ≠ [] := by
        rcases hiv : iv with _ | ⟨c, cs⟩
        · simp [hiv] at hivlen
        · simp
      have hblobne : iv ++ ':' :: prim.enc st.fallbackKey iv (trimChars apikey) ≠ [] := by
        simp [hivne]
      have hsplit : splitOnChar ':'
          (iv ++ ':' :: prim.enc st.fallbackKey iv (trimChars apikey)) =
          [iv, prim.enc st.fallbackKey iv (trimChars apikey)] := by
        rw [splitOnChar_append_cons _ hivc, splitOnChar_not_mem hcolon]
      rcases henv with h | h <;>
        simp [getApiKey, getApiKeyStores, h, hkf, hblobne, decrypt,
          getEncryptionKey, hsplit, hivne, hence, hivlen, hround]

/-- C1 amended-claim witness: concrete round trip of `"  key1  "` through
the config-file path (keytar down) with a concrete cipher and a concrete
32-character IV. -/
theorem saveApiKey_getApiKey_roundtrip_witness :
    ∃ st', saveApiKey ⟨fun _ _ _ => "ab".data, fun _ _ _ => .ok "key1".data⟩
        ⟨none, false, none, none, none, "mk".data⟩ []
        "0123456789abcdef0123456789abcdef".data "  key1  ".data = .ok st' ∧
      getApiKey ⟨fun _ _ _ => "ab".data, fun _ _ _ => .ok "key1".data⟩ st' [] =
        some (trimChars "  key1  ".data) :=
  saveApiKey_getApiKey_roundtrip
    ⟨fun _ _ _ => "ab".data, fun _ _ _ => .ok "key1".data⟩
    ⟨none, false, none, none, none, "mk".data⟩ []
    "0123456789abcdef0123456789abcdef".data "  key1  ".data
    rfl (by decide) (by decide) (by decide) (by decide)
    (Or.inl rfl) (by decide)

/-! ## Claim C5 -/

/-- C5: `getApiKey` resolution order.  A non-empty environment variable wins
and, since the state carrying every persisted source is universally
quantified, the value demonstrably ignores them; otherwise a non-empty
keytar hit wins over the config file; otherwise a stored blob that decrypts
yields its plaintext; and when every source misses the result is `none` —
the function is total (never throws) by construction. -/
theorem getApiKey_resolution_spec (prim : CryptoPrim) (st : VaultState)
    (fresh : List Char) :
    (∀ s, st.envVar = some s → s ≠ [] → getApiKey prim st fresh = some s) ∧
    ((st.envVar = none ∨ st.envVar = some []) →
      ∀ k, st.keytarAvailable = true → st.keytarApi = some k → k ≠ [] →
        getApiKey prim st fresh = some k) ∧
    ((st.envVar = none ∨ st.envVar = some []) →
      (st.keytarAvailable = false ∨ st.keytarApi = none ∨ st.keytarApi = some []) →
      ∀ blob v, st.configFile = some (.ok (some blob)) → blob ≠ [] →
        decrypt prim st fresh blob = .ok v →
        getApiKey prim st fresh = some v) ∧
    ((st.envVar = none ∨ st.envVar = some []) →
      (st.keytarAvailable = false ∨ st.keytarApi = none ∨ st.keytarApi = some []) →
      (st.configFile = none ∨ (∃ pe, st.configFile = some (.error pe)) ∨
        st.configFile = some (.ok none) ∨
        (∃ blob, st.configFile = some (.ok (some blob)) ∧
          (blob = [] ∨ ∃ e, decrypt prim st fresh blob = .error e))) →
      getApiKey prim st fresh = none) := by
  refine ⟨?_, ?_, ?_, ?_⟩
  · intro s hs hne
    simp [getApiKey, hs, hne]
  · rintro (h | h) k hka hap hne <;>
      simp [getApiKey, getApiKeyStores, h, hka, hap, hne]
  · rintro (h | h) (hk | hk | hk) blob v hcf hbne hdec <;>
      simp [getApiKey, getApiKeyStores, h, hk, hcf, hbne, hdec]
  · intro henv hkey hconf
    have hsc : getApiKeyStores prim st fresh = none := by
      rcases hconf with hcf | ⟨pe, hcf⟩ | hcf | ⟨blob, hcf, hb⟩
      · rcases hkey with hk | hk | hk <;> simp [getApiKeyStores, hk, hcf]
      · rcases hkey with hk | hk | hk <;> simp [getApiKeyStores, hk, hcf]
      · rcases hkey with hk | hk | hk <;> simp [getApiKeyStores, hk, hcf]
      · rcases hb with hb | ⟨e, hb⟩ <;> rcases hkey with hk | hk | hk <;>
          simp [getApiKeyStores, hk, hcf, hb]
    rcases henv with h | h <;> simp [getApiKey, h, hsc]

/-- C5 witness: the environment variable wins at a state where keytar and
the config file also hold data, and the all-miss state resolves to `none`. -/
theorem getApiKey_resolution_witness :
    getApiKey ⟨fun _ _ _ => [], fun _ _ _ => .error ()⟩
      ⟨some "env".data, true, some "kt".data, none, none, []⟩ [] =
      some "env".data ∧
    getApiKey ⟨fun _ _ _ => [], fun _ _ _ => .error ()⟩
      ⟨none, false, none, none, none, []⟩ [] = none := by
  constructor
  · exact (getApiKey_resolution_spec _ _ _).1 "env".data rfl (by decide)
  · exact (getApiKey_resolution_spec _ _ _).2.2.2 (Or.inl rfl) (Or.inl rfl)
      (Or.inl rfl)

/-! ## Claim C3 -/

/-- C3: `pushBranch` performs at most 3 attempts against origin — it stops
with success at the first succeeding attempt (performing exactly that many
attempts), and when all 3 attempts fail it propagates the third attempt's
error after exactly 3 attempts. -/
theorem pushBranch_retry_spec {α : Type} (outcomes : Nat → Option α) :
    (∀ k, k < 3 → outcomes k = none → (∀ j, j < k → outcomes j ≠ none) →
      pushBranchModel outcomes = (none, k + 1)) ∧
    (∀ e, outcomes 2 = some e → (∀ j, j < 2 → outcomes j ≠ none) →
      pushBranchModel outcomes = (some e, 3)) := by
  constructor
  · intro k hk h0 hprev
    interval_cases k
    · simp [pushBranchModel, pushAttemptsGo, h0]
    · rcases ho0 : outcomes 0 with _ | e0
      · exact absurd ho0 (hprev 0 (by norm_num))
      · simp [pushBranchModel, pushAttemptsGo, ho0, h0]
    · rcases ho0 : outcomes 0 with _ | e0
      · exact absurd ho0 (hprev 0 (by norm_num))
      · rcases ho1 : outcomes 1 with _ | e1
        · exact absurd ho1 (hprev 1 (by norm_num))
        · simp [pushBranchModel, pushAttemptsGo, ho0, ho1, h0]
  · intro e h2 hprev
    rcases ho0 : outcomes 0 with _ | e0
    · exact absurd ho0 (hprev 0 (by norm_num))
    · rcases ho1 : outcomes 1 with _ | e1
      · exact absurd ho1 (hprev 1 (by norm_num))
      · simp [pushBranchModel, pushAttemptsGo, ho0, ho1, h2]

/-- C3 witness: failing twice then succeeding returns success after exactly
3 attempts, and always failing propagates the last error after exactly 3
attempts. -/
theorem pushBranch_retry_witness :
    pushBranchModel (fun n => if n < 2 then some 0 else none) = (none, 3) ∧
    pushBranchModel (fun _ : Nat => some 7) = (some 7, 3) := by
  constructor
  · exact (pushBranch_retry_spec (fun n => if n < 2 then some 0 else none)).1 2
      (by norm_num) (by norm_num)
      (fun j hj => by interval_cases j <;> simp)
  · exact (pushBranch_retry_spec (fun _ : Nat => some 7)).2 7 rfl
      (fun j hj => by simp)

/-! ## Claim C8 -/

/-- C8: when AI branch naming is attempted (genie set and a key resolved),
the trimmed AI text is returned exactly when it is non-empty, contains a
'/' and is at most 50 characters; every other AI outcome — too long,
missing separator, empty or missing text, or a thrown AI call — yields the
manual formula `type/lowercased-hyphenated-description-date`. -/
theorem generateBranchName_spec (diff k : List Char)
    (ai : Except Unit (Option (List Char))) (ty desc today : List Char) :
    (∀ t, ai = .ok (some t) → trimChars t ≠ [] → '/' ∈ trimChars t →
      (trimChars t).length ≤ 50 →
      generateBranchName diff (some k) true ai (some ty) desc today =
        trimChars t) ∧
    (∀ t, ai = .ok (some t) →
      ¬(trimChars t ≠ [] ∧ '/' ∈ trimChars t ∧ (trimChars t).length ≤ 50) →
      generateBranchName diff (some k) true ai (some ty) desc today =
        ty ++ '/' :: (collapseWs (lowerStr desc) ++ '-' :: today)) ∧
    (ai = .ok none →
      generateBranchName diff (some k) true ai (some ty) desc today =
        ty ++ '/' :: (collapseWs (lowerStr desc) ++ '-' :: today)) ∧
    (ai = .error () →
      generateBranchName diff (some k) true ai (some ty) desc today =
        ty ++ '/' :: (collapseWs (lowerStr desc) ++ '-' :: today)) := by
  refine ⟨?_, ?_, ?_, ?_⟩
  · intro t hai h1 h2 h3
    simp [generateBranchName, hai, h1, h2, h3]
  · intro t hai hbad
    simp [generateBranchName, hai, hbad, manualBranchName, showType]
  · intro hai
    simp [generateBranchName, hai, manualBranchName, showType]
  · intro hai
    simp [generateBranchName, hai, manualBranchName, showType]

/-- C8 witness: the valid AI text `" fix/login "` is used trimmed; the
separator-free AI text `"badname"` falls back to the manual formula. -/
theorem generateBranchName_witness :
    generateBranchName [] (some "k".data) true (.ok (some " fix/login ".data))
      (some "fix".data) "Login Bug".data "2026-01-02".data =
      trimChars " fix/login ".data ∧
    generateBranchName [] (some "k".data) true (.ok (some "badname".data))
      (some "fix".data) "Login Bug".data "2026-01-02".data =
      "fix".data ++ '/' :: (collapseWs (lowerStr "Login Bug".data) ++
        '-' :: "2026-01-02".data) := by
  constructor
  · exact (generateBranchName_spec [] "k".data _ "fix".data "Login Bug".data
      "2026-01-02".data).1 " fix/login ".data rfl (by decide) (by decide)
      (by decide)
  · exact (generateBranchName_spec [] "k".data _ "fix".data "Login Bug".data
      "2026-01-02".data).2.1 "badname".data rfl (by decide)

/-! ## Claim C9 -/

/-- C9: in `mergeToMainAndPush`, a failed pull of main never aborts the
sequence — the merge step still runs and the propagated outcome is the same
as with a successful pull — whereas a failed merge of the feature branch
always propagates its error to the caller and no later step (push of main,
branch cleanup) runs. -/
theorem mergeToMainAndPush_spec (m : MergeEnv) (br : List Char) :
    (m.checkoutMain = none →
      Ev.mergeBranch br ∈ (mergeToMainAndPush { m with pullOk := false } br).2 ∧
      (mergeToMainAndPush { m with pullOk := false } br).1 =
        (mergeToMainAndPush { m with pullOk := true } br).1) ∧
    (∀ e, m.checkoutMain = none → m.mergeResult = some e →
      (mergeToMainAndPush m br).1 = some e ∧
      Ev.pushMain ∉ (mergeToMainAndPush m br).2 ∧
      Ev.deleteLocal ∉ (mergeToMainAndPush m br).2) := by
  constructor
  · intro hco
    constructor
    · rcases hm : m.mergeResult with _ | e
      · simp only [mergeToMainAndPush, hco, hm]
        split <;> try split <;> try split <;> try split <;> try split
        all_goals simp_all
      · simp [mergeToMainAndPush, hco, hm]
    · rcases hm : m.mergeResult with _ | e <;>
        simp only [mergeToMainAndPush, hco, hm] <;>
        split <;> try split <;> try split <;> try split <;> try split
      all_goals simp_all
  · intro e hco hm
    refine ⟨?_, ?_, ?_⟩ <;> simp [mergeToMainAndPush, hco, hm]

/-- C9 witness: with checkout of main succeeding, a failing pull and a
succeeding merge, the merge step runs; with a failing merge the error
propagates and neither push nor cleanup runs. -/
theorem mergeToMainAndPush_witness :
    Ev.mergeBranch "f".data ∈
      (mergeToMainAndPush
        ⟨none, false, none, true, none, true, true, true⟩ "f".data).2 ∧
    (mergeToMainAndPush
        ⟨none, true, some "conflict".data, true, none, true, true, true⟩
        "f".data).1 = some "conflict".data := by
  constructor
  · have h := (mergeToMainAndPush_spec
      ⟨none, true, none, true, none, true, true, true⟩ "f".data).1 rfl
    exact h.1
  · exact ((mergeToMainAndPush_spec
      ⟨none, true, some "conflict".data, true, none, true, true, true⟩
      "f".data).2 "conflict".data rfl rfl).1

/-! ## Claim C2 -/

/-- C2 counterexample: in the diff whose only changed file is
`config.test.js`, every changed file path matches `*.test.*`, yet the
classifier returns `"chore"` (the chore pattern `config` is tested before
the test pattern), not `"test"` — the third part of the claim as stated is
false. -/
theorem detectCommitType_test_counterexample :
    headerLines "diff --git a/config.test.js b/config.test.js".data =
      ["diff --git a/config.test.js b/config.test.js".data] ∧
    ".test.".data <:+:
      lowerStr "diff --git a/config.test.js b/config.test.js".data ∧
    detectCommitType "diff --git a/config.test.js b/config.test.js".data =
      "chore" ∧
    detectCommitType "diff --git a/config.test.js b/config.test.js".data ≠
      "test" := by
  refine ⟨by decide, by decide, by decide, by decide⟩

/-- C2 amended: the empty diff classifies as `feat`; a diff in which some
changed-file header line contains `.md` (case-insensitively) — in
particular one whose every changed file matches `*.md` — classifies as
`docs`; and a diff with at least one changed-file header line, all of whose
header lines contain `.test.` while none contains `.md` or any of the
dependency-lock/config/environment patterns, classifies as `test` (the
exclusions are forced by the counterexample: those patterns are tested
first). -/
theorem detectCommitType_spec :
    detectCommitType [] = "feat" ∧
    (∀ d l, l ∈ headerLines d → ".md".data <:+: lowerStr l →
      detectCommitType d = "docs") ∧
    (∀ d, headerLines d ≠ [] →
      (∀ l ∈ headerLines d, ".test.".data <:+: lowerStr l) →
      (∀ l ∈ headerLines d, ¬ ".md".data <:+: lowerStr l) →
      (∀ l ∈ headerLines d, ∀ p ∈ chorePats, ¬ p <:+: lowerStr l) →
      detectCommitType d = "test") := by
  refine ⟨by decide, ?_, ?_⟩
  · intro d l hl hmd
    have hd : d ≠ [] := by
      rintro rfl
      rw [show headerLines [] = [] from by decide] at hl
      cases hl
    have hinf : ".md".data <:+: lowerStr (joinNl (headerLines d)) := by
      rw [lowerStr_joinNl]
      exact hmd.trans (mem_infixOf_joinNl (List.mem_map_of_mem lowerStr hl))
    simp [detectCommitType, hd, matchCI, hinf]
  · intro d hne htest hmd hchore
    have hd : d ≠ [] := by
      rintro rfl
      exact hne (by decide)
    have hpats : ∀ p ∈ chorePats, p ≠ [] ∧ '\n' ∉ p := by decide
    have hnotmd : ¬ ".md".data <:+: lowerStr (joinNl (headerLines d)) := by
      rw [lowerStr_joinNl]
      intro hinf
      rcases infixOf_joinNl (by decide) (by decide) hinf with ⟨l', hl', hpl⟩
      rcases List.mem_map.mp hl' with ⟨l, hl, rfl⟩
      exact hmd l hl hpl
    have hnochore : ∀ p ∈ chorePats,
        ¬ p <:+: lowerStr (joinNl (headerLines d)) := by
      intro p hp hinf
      rw [lowerStr_joinNl] at hinf
      rcases infixOf_joinNl (hpats p hp).1 (hpats p hp).2 hinf with ⟨l', hl', hpl⟩
      rcases List.mem_map.mp hl' with ⟨l, hl, rfl⟩
      exact hchore l hl p hp hpl
    have hanyfalse : (chorePats.any fun p => matchCI (joinNl (headerLines d)) p) = false := by
      rw [List.any_eq_false]
      intro p hp
      simpa [matchCI] using hnochore p hp
    have htinf : ".test.".data <:+: lowerStr (joinNl (headerLines d)) := by
      rcases List.exists_mem_of_ne_nil _ hne with ⟨l, hl⟩
      rw [lowerStr_joinNl]
      exact (htest l hl).trans (mem_infixOf_joinNl (List.mem_map_of_mem lowerStr hl))
    simp [detectCommitType, hd, matchCI, hnotmd, hanyfalse, htinf]
    exact hnochore

/-- C2 amended-claim witness: the empty diff yields `feat`; the diff
touching only `notes.md` yields `docs`; the diff touching only `a.test.js`
yields `test`. -/
theorem detectCommitType_spec_witness :
    detectCommitType [] = "feat" ∧
    detectCommitType "diff --git a/notes.md b/notes.md".data = "docs" ∧
    detectCommitType "diff --git a/a.test.js b/a.test.js".data = "test" := by
  refine ⟨detectCommitType_spec.1, ?_, ?_⟩
  · exact detectCommitType_spec.2.1 "diff --git a/notes.md b/notes.md".data
      "diff --git a/notes.md b/notes.md".data (by decide) (by decide)
  · exact detectCommitType_spec.2.2 "diff --git a/a.test.js b/a.test.js".data
      (by decide) (by decide) (by decide) (by decide)

/-! ## Trace-shape lemmas for the workflow model -/

theorem mergeTrace_events (m : MergeEnv) (br : List Char) :
    ∀ e ∈ (mergeToMainAndPush m br).2,
      e ≠ Ev.detectType ∧ e ≠ Ev.genCommitMsg ∧ (∀ s, e ≠ Ev.commitMsg s) ∧
      (∀ s, e ≠ Ev.suggestBranch s) := by
  intro e he
  cases hpo : m.pullOk
  all_goals simp only [mergeToMainAndPush, hpo, Bool.false_eq_true,
    if_false, if_true] at he
  all_goals
    split at he <;> try split at he <;> try split at he <;> try split at he <;>
      try split at he <;> try split at he <;> try split at he
  all_goals fin_cases he <;> simp

theorem pushPhase_trace_shape (env : FlowEnv) (opts : Opts) (bn : List Char)
    (t : List Ev) :
    ∃ ex, (pushPhase env opts bn t).2 = t ++ ex ∧
      ∀ e ∈ ex, e ≠ Ev.detectType ∧ e ≠ Ev.genCommitMsg ∧
        (∀ s, e ≠ Ev.commitMsg s) ∧ (∀ s, e ≠ Ev.suggestBranch s) := by
  by_cases hpm : opts.pushToMain = true
  · by_cases hbn : bn = "main".data
    · by_cases her : env.ensureRemote = true
      · rcases hpe : env.pushMainErr with _ | e
        · exact ⟨[Ev.pushMain], by simp [pushPhase, hpm, hbn, her, hpe],
            by intro e he; fin_cases he <;> simp⟩
        · exact ⟨[Ev.pushMain], by simp [pushPhase, hpm, hbn, her, hpe],
            by intro e he; fin_cases he <;> simp⟩
      · exact ⟨[], by simp [pushPhase, hpm, hbn, her], by intro e he; cases he⟩
    · rcases hmm : mergeToMainAndPush env.merge bn with ⟨r, mt⟩
      have hmev := mergeTrace_events env.merge bn
      rw [hmm] at hmev
      rcases r with _ | e
      · exact ⟨mt, by simp [pushPhase, hpm, hbn, hmm], hmev⟩
      · exact ⟨mt, by simp [pushPhase, hpm, hbn, hmm], hmev⟩
  · by_cases hcp : env.confirmPush = true
    · by_cases her : env.ensureRemote = true
      · rcases hpb : pushBranchModel env.pushOutcomes with ⟨r1, n⟩
        rcases r1 with _ | e
        · by_cases hmg : bn ≠ "main".data ∧ env.wantMergeToMain = true
          · rcases hmm : mergeToMainAndPush env.merge bn with ⟨r, mt⟩
            have hmev := mergeTrace_events env.merge bn
            rw [hmm] at hmev
            have hshape : ∀ e' ∈ Ev.pushBranchEv bn :: mt,
                e' ≠ Ev.detectType ∧ e' ≠ Ev.genCommitMsg ∧
                (∀ s, e' ≠ Ev.commitMsg s) ∧ (∀ s, e' ≠ Ev.suggestBranch s) := by
              intro e' he'
              rcases List.mem_cons.mp he' with rfl | he'
              · simp
              · exact hmev e' he'
            rcases r with _ | e
            · exact ⟨Ev.pushBranchEv bn :: mt,
                by simp [pushPhase, hpm, hcp, her, hpb, hmg, hmm], hshape⟩
            · exact ⟨Ev.pushBranchEv bn :: mt,
                by simp [pushPhase, hpm, hcp, her, hpb, hmg, hmm], hshape⟩
          · exact ⟨[Ev.pushBranchEv bn],
              by simp [pushPhase, hpm, hcp, her, hpb, hmg],
              by intro e he; fin_cases he <;> simp⟩
        · exact ⟨[Ev.pushBranchEv bn],
            by simp [pushPhase, hpm, hcp, her, hpb],
            by intro e he; fin_cases he <;> simp⟩
      · by_cases hmg : bn ≠ "main".data ∧ env.wantMergeToMain = true
        · rcases hmm : mergeToMainAndPush env.merge bn with ⟨r, mt⟩
          have hmev := mergeTrace_events env.merge bn
          rw [hmm] at hmev
          rcases r with _ | e
          · exact ⟨mt, by simp [pushPhase, hpm, hcp, her, hmg, hmm], hmev⟩
          · exact ⟨mt, by simp [pushPhase, hpm, hcp, her, hmg, hmm], hmev⟩
        · exact ⟨[], by simp [pushPhase, hpm, hcp, her, hmg],
            by intro e he; cases he⟩
    · exact ⟨[], by simp [pushPhase, hpm, hcp], by intro e he; cases he⟩

theorem branchStep_events (env : FlowEnv) (opts : Opts) (desc : List Char) :
    ∀ e ∈ (branchStep env opts desc).2,
      (∃ n, e = Ev.suggestBranch n) ∨ (∃ n, e = Ev.createBranch n) := by
  intro e he
  simp only [branchStep] at he
  split at he <;> try split at he <;> try split at he <;> try split at he
  all_goals try exact absurd he (List.not_mem_nil e)
  all_goals fin_cases he <;> simp

theorem branchStep_ok (env : FlowEnv) (opts : Opts) (desc : List Char)
    (hchk : env.checkoutErr = none) :
    ∃ b t1, branchStep env opts desc = (.ok b, t1) := by
  simp only [branchStep, hchk]
  split <;> try split
  all_goals exact ⟨_, _, rfl⟩

theorem pushPhase_mono (env : FlowEnv) (opts : Opts) (bn : List Char)
    (t : List Ev) (e : Ev) (he : e ∈ t) :
    e ∈ (pushPhase env opts bn t).2 := by
  obtain ⟨ex, hex, -⟩ := pushPhase_trace_shape env opts bn t
  rw [hex]
  exact List.mem_append_left _ he

theorem commitPhase_mono (env : FlowEnv) (opts : Opts)
    (desc bn dn : List Char) (t : List Ev) (e : Ev) (he : e ∈ t) :
    e ∈ (commitPhase env opts desc bn dn t).2 := by
  simp only [commitPhase]
  split
  · split <;> simp [he]
  · refine pushPhase_mono env opts bn _ e ?_
    split <;> simp [he]

theorem runMainFlow_mem_branch_events (env : FlowEnv) (desc : List Char)
    (opts : Opts) (e : Ev)
    (hI : (if env.isRepo then none else env.initErr) = none)
    (he : e ∈ (branchStep env opts desc).2) :
    e ∈ (runMainFlow env desc opts).2 := by
  rcases hbs : branchStep env opts desc with ⟨r, t1⟩
  rw [hbs] at he
  simp only [runMainFlow, hI, hbs]
  rcases r with err | b
  · simp [he]
  · by_cases hd1 : env.diffCached1 = []
    · rcases hse : env.stageErr with _ | err
      · by_cases hd2 : env.diffCached2 = []
        · simp [hd1, hse, hd2, he]
        · simp only [hd1, hse, hd2, if_true, if_false]
          refine commitPhase_mono env opts desc b env.diffCached2 _ e ?_
          simp [he]
      · simp [hd1, hse, he]
    · simp only [hd1, if_false]
      refine commitPhase_mono env opts desc b env.diffCached1 _ e ?_
      simp [he]

/-! ## Claim C6 -/

/-- C6: when the staged diff is empty and stays empty after force-staging
(and the run reaches the staging step: initialization and branch checkout
succeed), `runMainFlow` ends with the terminal nothing-to-commit failure
and a non-zero exit, and commit-message generation is never invoked. -/
theorem runMainFlow_nothingToCommit (env : FlowEnv) (desc : List Char)
    (opts : Opts)
    (hinit : env.isRepo = true ∨ env.initErr = none)
    (hchk : env.checkoutErr = none)
    (hd1 : env.diffCached1 = []) (hstage : env.stageErr = none)
    (hd2 : env.diffCached2 = []) :
    (runMainFlow env desc opts).1 =
      .err "No changes detected to commit even after staging.".data ∧
    (runMainFlow env desc opts).1.exitCode ≠ 0 ∧
    Ev.genCommitMsg ∉ (runMainFlow env desc opts).2 := by
  have hI : (if env.isRepo then none else env.initErr) =
      (none : Option (List Char)) := by
    rcases hinit with h | h <;> simp [h]
  obtain ⟨b, t1, hbs⟩ := branchStep_ok env opts desc hchk
  have hev := branchStep_events env opts desc
  rw [hbs] at hev
  have hrun : runMainFlow env desc opts =
      (.err "No changes detected to commit even after staging.".data,
        ((if env.isRepo then [] else [Ev.initRepo]) ++
          (if opts.remote.isSome then [Ev.remoteAdd] else [])) ++ t1 ++
          [Ev.stageAll]) := by
    simp [runMainFlow, hI, hbs, hd1, hstage, hd2]
  refine ⟨by rw [hrun], by rw [hrun]; simp [FlowExit.exitCode], ?_⟩
  rw [hrun]
  simp only [List.mem_append, List.mem_singleton]
  rintro ((h | h) | h)
  · rcases h with h | h <;> split at h <;> simp at h
  · rcases hev _ h with ⟨n, hn⟩ | ⟨n, hn⟩ <;> cases hn
  · cases h

/-- C6 witness: a concrete run with empty staged diffs before and after
staging ends in the nothing-to-commit failure without generating a message. -/
theorem runMainFlow_nothingToCommit_witness :
    (runMainFlow flowEnv0 "msg".data opts0).1 =
      .err "No changes detected to commit even after staging.".data ∧
    Ev.genCommitMsg ∉ (runMainFlow flowEnv0 "msg".data opts0).2 := by
  have h := runMainFlow_nothingToCommit flowEnv0 "msg".data opts0
    (Or.inl rfl) rfl rfl rfl rfl
  exact ⟨h.1, h.2.2⟩

/-! ## Claim C7 -/

/-- C7: in open-source mode without AI, with an explicit type, commit
history present and the operator choosing a new branch, the suggested
branch name offered at the prompt is
`type ++ "/#" ++ issueNumber ++ "-" ++ shortTitle`, where `shortTitle` is
the description lowercased, whitespace runs turned into single hyphens,
and remaining non-alphanumeric non-hyphen characters stripped
(`sanitizeSlug`). -/
theorem runMainFlow_osc_suggestion (env : FlowEnv) (desc : List Char)
    (opts : Opts) (ty : List Char)
    (hinit : env.isRepo = true ∨ env.initErr = none)
    (hosc : opts.osc = true) (hgenie : opts.genie = false)
    (hty : opts.type = some ty)
    (hbr : opts.branch = true) (hhc : env.hasCommits = true)
    (hnew : env.wantNewBranch = true)
    (hnum : env.issueNumber.all Char.isDigit = true) :
    Ev.suggestBranch
        (ty ++ "/#".data ++ env.issueNumber ++ '-' :: sanitizeSlug desc) ∈
      (runMainFlow env desc opts).2 := by
  have hI : (if env.isRepo then none else env.initErr) =
      (none : Option (List Char)) := by
    rcases hinit with h | h <;> simp [h]
  refine runMainFlow_mem_branch_events env desc opts _ hI ?_
  simp only [branchStep, hbr, hhc, hnew, hosc, hgenie, hty]
  cases env.checkoutErr <;> simp [showType]

/-- C7 witness: description `"Fix Login Bug"`, issue `"42"`, type `fix`
yield the suggestion `fix/#42-fix-login-bug`. -/
theorem runMainFlow_osc_suggestion_witness :
    Ev.suggestBranch "fix/#42-fix-login-bug".data ∈
      (runMainFlow flowEnv0 "Fix Login Bug".data opts0).2 := by
  have h := runMainFlow_osc_suggestion flowEnv0 "Fix Login Bug".data opts0
    "fix".data (Or.inl rfl) rfl rfl rfl rfl rfl rfl (by decide)
  have he : "fix".data ++ "/#".data ++ flowEnv0.issueNumber ++
      '-' :: sanitizeSlug "Fix Login Bug".data = "fix/#42-fix-login-bug".data := by
    decide
  exact he ▸ h

theorem commitPhase_genie_undefined (env : FlowEnv) (opts : Opts)
    (desc bn dn : List Char) (t : List Ev)
    (hgenie : opts.genie = true) (hty : opts.type = none)
    (hscope : opts.scope = [])
    (hkey : getApiKey env.prim env.vault env.freshKey = none)
    (hnod : Ev.detectType ∉ t) :
    Ev.detectType ∉ (commitPhase env opts desc bn dn t).2 ∧
    Ev.commitMsg ("undefined: ".data ++ desc) ∈
      (commitPhase env opts desc bn dn t).2 := by
  have hmsg : generateCommitMessage dn
      (getApiKey env.prim env.vault env.freshKey) true env.aiCommit
      opts.type opts.scope desc = "undefined: ".data ++ desc := by
    rw [hkey]
    have hlit : ("undefined: ".data : List Char) =
        "undefined".data ++ ": ".data := by decide
    simp [generateCommitMessage, hty, hscope, manualCommitMsg, showType, hlit]
  rcases hce : env.commitErr with _ | err
  · have hcp : commitPhase env opts desc bn dn t = pushPhase env opts bn
        (t ++ [Ev.genCommitMsg, Ev.commitMsg ("undefined: ".data ++ desc)]) := by
      simp [commitPhase, hgenie, hce, hmsg]
    rw [hcp]
    obtain ⟨ex, hex, hexev⟩ := pushPhase_trace_shape env opts bn
      (t ++ [Ev.genCommitMsg, Ev.commitMsg ("undefined: ".data ++ desc)])
    rw [hex]
    constructor
    · intro hmem
      rcases List.mem_append.mp hmem with h | h
      · rcases List.mem_append.mp h with h | h
        · exact hnod h
        · simp at h
      · exact (hexev _ h).1 rfl
    · exact List.mem_append_left _ (List.mem_append_right _ (by simp))
  · have hcp : commitPhase env opts desc bn dn t = (.err err,
        t ++ [Ev.genCommitMsg, Ev.commitMsg ("undefined: ".data ++ desc)]) := by
      simp [commitPhase, hgenie, hce, hmsg]
    rw [hcp]
    constructor
    · intro hmem
      rcases List.mem_append.mp hmem with h | h
      · exact hnod h
      · simp at h
    · exact List.mem_append_right _ (by simp)

/-! ## Claim C10 -/

/-- C10: when AI mode is requested but no key resolves, no `--type` is
given and the scope is empty, any run that reaches the commit (a non-empty
staged diff directly, or after successful staging) never invokes the
diff-based classifier, and the committed message is the literal
`"undefined: "` followed by the description — the commit subcommand
declares `--type` with no default and the fallback template interpolates
the absent value as the string `"undefined"`. -/
theorem runMainFlow_undefined_type (env : FlowEnv) (desc : List Char)
    (opts : Opts)
    (hinit : env.isRepo = true ∨ env.initErr = none)
    (hchk : env.checkoutErr = none)
    (hgenie : opts.genie = true) (hty : opts.type = none)
    (hscope : opts.scope = [])
    (hkey : getApiKey env.prim env.vault env.freshKey = none)
    (hdiff : env.diffCached1 ≠ [] ∨
      (env.stageErr = none ∧ env.diffCached2 ≠ []))
    (hcommit : env.commitErr = none) :
    Ev.detectType ∉ (runMainFlow env desc opts).2 ∧
    Ev.commitMsg ("undefined: ".data ++ desc) ∈
      (runMainFlow env desc opts).2 := by
  have hI : (if env.isRepo then none else env.initErr) =
      (none : Option (List Char)) := by
    rcases hinit with h | h <;> simp [h]
  obtain ⟨b, t1, hbs⟩ := branchStep_ok env opts desc hchk
  have hev := branchStep_events env opts desc
  rw [hbs] at hev
  have hnod : Ev.detectType ∉
      ((if env.isRepo then [] else [Ev.initRepo]) ++
        (if opts.remote.isSome then [Ev.remoteAdd] else [])) ++ t1 := by
    intro hmem
    rcases List.mem_append.mp hmem with h | h
    · rcases List.mem_append.mp h with h | h <;> split at h <;> simp at h
    · rcases hev _ h with ⟨n, hn⟩ | ⟨n, hn⟩ <;> cases hn
  by_cases hd1 : env.diffCached1 = []
  · rcases hdiff with h | ⟨hse, hd2⟩
    · exact absurd hd1 h
    · have hrun : runMainFlow env desc opts =
          commitPhase env opts desc b env.diffCached2
            ((((if env.isRepo then [] else [Ev.initRepo]) ++
              (if opts.remote.isSome then [Ev.remoteAdd] else [])) ++ t1) ++
              [Ev.stageAll]) := by
        simp [runMainFlow, hI, hbs, hd1, hse, hd2]
      rw [hrun]
      refine commitPhase_genie_undefined env opts desc b env.diffCached2 _
        hgenie hty hscope hkey ?_
      intro hmem
      rcases List.mem_append.mp hmem with h | h
      · exact hnod h
      · simp at h
  · have hrun : runMainFlow env desc opts =
        commitPhase env opts desc b env.diffCached1
          (((if env.isRepo then [] else [Ev.initRepo]) ++
            (if opts.remote.isSome then [Ev.remoteAdd] else [])) ++ t1) := by
      simp [runMainFlow, hI, hbs, hd1]
    rw [hrun]
    exact commitPhase_genie_undefined env opts desc b env.diffCached1 _
      hgenie hty hscope hkey hnod

/-- C10 witness: a concrete run with `--genie`, no resolvable key, no
`--type` and empty scope commits `"undefined: do it"` and never calls the
classifier. -/
theorem runMainFlow_undefined_type_witness :
    Ev.detectType ∉ (runMainFlow
      { flowEnv0 with diffCached1 := "x".data } "do it".data
      { opts0 with genie := true, type := none, osc := false }).2 ∧
    Ev.commitMsg ("undefined: ".data ++ "do it".data) ∈ (runMainFlow
      { flowEnv0 with diffCached1 := "x".data } "do it".data
      { opts0 with genie := true, type := none, osc := false }).2 :=
  runMainFlow_undefined_type
    { flowEnv0 with diffCached1 := "x".data } "do it".data
    { opts0 with genie := true, type := none, osc := false }
    (Or.inl rfl) rfl rfl rfl rfl (by decide) (Or.inl (by decide)) rfl
